import Mathlib

/-!
Verification development for the moshudp repository (src/main.rs, src/protocol.rs,
src/client.rs, src/server.rs).

The Rust sources are shallowly embedded as executable Lean definitions:

* Raw bytes (`u8`) are `Fin 256`; byte buffers (`Vec<u8>`, `&[u8]`, `String`
  payload bytes) are `List Byte`.  Rust `String` fields of `Message` are
  modelled by their UTF-8 byte sequences; bincode re-validates UTF-8 on
  decode, which always succeeds on bytes that came from a `String`, so this
  drops no observable behaviour of the code under study.
* The bincode codec configured in `protocol.rs` (`DefaultOptions` +
  big-endian + fixint encoding) writes `u32`/`u64` as fixed-width big-endian
  bytes, enum discriminants as `u32`, sequences as a `u64` length prefix
  followed by the raw bytes, and `[u8; 24]` as 24 raw bytes.  `DefaultOptions`
  rejects trailing bytes, and `.with_limit(1024)` makes any deserialization
  that would read more than 1024 bytes fail; since a successful exact parse
  of the whole input reads exactly `input.length` bytes, a top-level
  deserialization succeeds iff the input is at most 1024 bytes long and
  parses exactly.  Failures from the length bound, from truncation and from
  trailing garbage are indistinguishable to the caller (all are `Err`).
* The external XChaCha20Poly1305 AEAD crate (an external collaborator of the
  repository) is modelled by an idealized AEAD with the same interface
  shape: ciphertext = plaintext plus a 16-byte tag that depends on key,
  nonce and plaintext; decryption strips and checks the tag.
* Socket addresses are abstract (`Addr := ℕ`); the code only compares them
  for equality.  `FxHashSet<Nonce>` is a `Finset Nonce`.
* The event loops in `client.rs` and `server.rs` are embedded as step
  functions over explicit state, one loop iteration per event; results of
  external calls (socket sends, process spawns, entropy) are passed in as
  explicit environment values.  `std::process::exit(c)` is the outcome
  `exitProcess c`; a `return` out of `connect`/`serve` is `returnToMain`
  (main then finishes with `Ok(())`, so the process exits with status 0).
-/

set_option autoImplicit false

namespace Moshudp

abbrev Byte := Fin 256

abbrev Key := List Byte

/-- `pub type Nonce = [u8; 24];` — 24 raw bytes, modelled as a byte list
(the length-24 constraint is carried as a hypothesis where it matters). -/
abbrev Nonce := List Byte

/-- Abstract `SocketAddr`; the sources only compare addresses for equality. -/
abbrev Addr := ℕ

/-- `pub const MAGIC : u32 = 0x55644d6f;` -/
def MAGIC : ℕ := 0x55644d6f

/-- Big-endian fixed-width encoding of `n` on `w` bytes (the value is
truncated mod `256 ^ w`, matching a `u32`/`u64` machine integer). -/
def beBytes : ℕ → ℕ → List Byte
  | 0, _ => []
  | w + 1, n => beBytes w (n / 256) ++ [⟨n % 256, Nat.mod_lt _ (by norm_num)⟩]

/-- Big-endian interpretation of a byte list as a natural number. -/
def deBytes (l : List Byte) : ℕ :=
  l.foldl (fun acc b => acc * 256 + b.val) 0

/-- The outer wire envelope of `protocol.rs`. -/
structure Datagram where
  magic : ℕ
  nonce : Nonce
  data : List Byte

/-- The inner plaintext message of `protocol.rs`; `String` fields are
modelled as their UTF-8 bytes, `u64` as ℕ (with `< 2 ^ 64` where needed). -/
inductive Message
  | Ping
  | Pong
  | StartServer (sessid : ℕ)
  | ServerStarted (key : List Byte)
  | Failed (msg : List Byte)

deriving instance DecidableEq for Datagram
deriving instance DecidableEq for Message

/-- Conditions automatically satisfied by every value representable in the
Rust types (`sessid : u64`, string lengths fit `usize`/`u64`). -/
def Message.wf : Message → Prop
  | .StartServer sessid => sessid < 2 ^ 64
  | .ServerStarted key => key.length < 2 ^ 64
  | .Failed msg => msg.length < 2 ^ 64
  | _ => True

instance (m : Message) : Decidable m.wf := by
  cases m <;> (unfold Message.wf; infer_instance)

/-- bincode serialization of `Message` (big-endian fixint: `u32` variant
tag, `u64` integer fields, `u64` length prefix + raw bytes for strings). -/
def serMessage : Message → List Byte
  | .Ping => beBytes 4 0
  | .Pong => beBytes 4 1
  | .StartServer sessid => beBytes 4 2 ++ beBytes 8 sessid
  | .ServerStarted key => beBytes 4 3 ++ beBytes 8 key.length ++ key
  | .Failed msg => beBytes 4 4 ++ beBytes 8 msg.length ++ msg

/-- bincode serialization of the outer `Datagram` envelope. -/
def serDatagram (d : Datagram) : List Byte :=
  beBytes 4 d.magic ++ d.nonce ++ beBytes 8 d.data.length ++ d.data

/-- Read exactly `k` bytes from the front of the input, returning them and
the unread remainder; fails on truncated input (bincode read failure). -/
def readBytes (k : ℕ) (b : List Byte) : Option (List Byte × List Byte) :=
  if k ≤ b.length then some (b.take k, b.drop k) else none

/-- Byte-level parser for `Message` (bincode deserialization order). -/
def parseMessage (b : List Byte) : Option (Message × List Byte) :=
  match readBytes 4 b with
  | none => none
  | some (tag, r) =>
    let t := deBytes tag
    if t = 0 then some (.Ping, r)
    else if t = 1 then some (.Pong, r)
    else if t = 2 then
      match readBytes 8 r with
      | none => none
      | some (sid, r2) => some (.StartServer (deBytes sid), r2)
    else if t = 3 then
      match readBytes 8 r with
      | none => none
      | some (len, r2) =>
        match readBytes (deBytes len) r2 with
        | none => none
        | some (key, r3) => some (.ServerStarted key, r3)
    else if t = 4 then
      match readBytes 8 r with
      | none => none
      | some (len, r2) =>
        match readBytes (deBytes len) r2 with
        | none => none
        | some (msg, r3) => some (.Failed msg, r3)
    else none

/-- Byte-level parser for the outer `Datagram` envelope. -/
def parseDatagram (b : List Byte) : Option (Datagram × List Byte) :=
  match readBytes 4 b with
  | none => none
  | some (mg, r) =>
    match readBytes 24 r with
    | none => none
    | some (nn, r2) =>
      match readBytes 8 r2 with
      | none => none
      | some (len, r3) =>
        match readBytes (deBytes len) r3 with
        | none => none
        | some (dat, r4) => some ({ magic := deBytes mg, nonce := nn, data := dat }, r4)

/-- `bco().with_limit(1024).deserialize::<Datagram>(bytes)`: succeeds iff
the input is within the 1024-byte limit and parses exactly (no trailing
bytes — `DefaultOptions` rejects them). -/
def deserDatagram (b : List Byte) : Option Datagram :=
  if b.length ≤ 1024 then
    match parseDatagram b with
    | some (d, []) => some d
    | _ => none
  else none

/-- `bco().with_limit(1024).deserialize::<Message>(bytes)` for the inner
plaintext. -/
def deserMessage (b : List Byte) : Option Message :=
  if b.length ≤ 1024 then
    match parseMessage b with
    | some (m, []) => some m
    | _ => none
  else none

/-- Helper for the idealized AEAD tag. -/
def byteSum (l : List Byte) : ℕ :=
  l.foldl (fun acc b => acc + b.val) 0

/-- Idealized 16-byte authentication tag of the external AEAD crate:
a keyed function of key, nonce and plaintext. -/
def aeadTag (key nonce pt : List Byte) : List Byte :=
  (List.range 16).map fun i =>
    ⟨(3 * byteSum key + 5 * byteSum nonce + 7 * byteSum pt + 11 * pt.length + i) % 256,
      Nat.mod_lt _ (by norm_num)⟩

/-- Model of `crypto.encrypt(nonce, plaintext)`: ciphertext = plaintext
followed by the 16-byte tag (XChaCha20Poly1305 ciphertexts are plaintext
length + 16). -/
def aeadEncrypt (key nonce pt : List Byte) : List Byte :=
  pt ++ aeadTag key nonce pt

/-- Model of `crypto.decrypt(nonce, ciphertext)`: strip and verify the
16-byte tag; any mismatch (tamper, wrong key, wrong nonce) fails. -/
def aeadDecrypt (key nonce ct : List Byte) : Option (List Byte) :=
  if 16 ≤ ct.length then
    let pt := ct.take (ct.length - 16)
    if ct.drop (ct.length - 16) = aeadTag key nonce pt then some pt else none
  else none

/-- The distinct failure exits of `protocol.rs::decrypt`, in source order:
outer `deserialize` error, `"Invalid magic"`, `"Decryption failed"`,
`"Replay attack"`, inner `deserialize` error. -/
inductive DecryptError
  | envelopeDecode
  | magicMismatch
  | authFailure
  | replay
  | innerDecode

deriving instance DecidableEq for DecryptError
deriving instance DecidableEq for Except

/-- `protocol.rs::encrypt`.  The fresh random nonce drawn from `getrandom`
is passed in explicitly; the `Result` only fails on entropy-source failure,
which is outside the model. -/
def encrypt (msg : Message) (crypto : Key) (nonce : Nonce) : List Byte :=
  let buf := serMessage msg
  let data := aeadEncrypt crypto nonce buf
  serDatagram { magic := MAGIC, nonce := nonce, data := data }

/-- `protocol.rs::decrypt`.  The in-place mutation of `past_nonces` is
explicit state passing: the first component of the result is the cache
after the call.  Note the source inserts the nonce before attempting to
deserialize the inner message. -/
def decrypt (msg : List Byte) (crypto : Key) (past_nonces : Finset Nonce) :
    Finset Nonce × Except DecryptError Message :=
  match deserDatagram msg with
  | none => (past_nonces, .error .envelopeDecode)
  | some h =>
    if h.magic ≠ MAGIC then (past_nonces, .error .magicMismatch)
    else
      match aeadDecrypt crypto h.nonce h.data with
      | none => (past_nonces, .error .authFailure)
      | some buf =>
        if h.nonce ∈ past_nonces then (past_nonces, .error .replay)
        else
          match deserMessage buf with
          | some m => (insert h.nonce past_nonces, .ok m)
          | none => (insert h.nonce past_nonces, .error .innerDecode)

theorem beBytes_length (w n : ℕ) : (beBytes w n).length = w := by
  induction w generalizing n with
  | zero => rfl
  | succ w ih => simp [beBytes, ih]

theorem deBytes_beBytes (w n : ℕ) : deBytes (beBytes w n) = n % 256 ^ w := by
  induction w generalizing n with
  | zero => simp [beBytes, deBytes, Nat.mod_one]
  | succ w ih =>
    have : deBytes (beBytes (w + 1) n) = deBytes (beBytes w (n / 256)) * 256 + n % 256 := by
      simp [beBytes, deBytes, List.foldl_append]
    rw [this, ih]
    have hp : (256 : ℕ) ^ (w + 1) = 256 * 256 ^ w := by ring
    rw [hp, Nat.mod_mul]
    ring

theorem deBytes_beBytes_of_lt {w n : ℕ} (h : n < 256 ^ w) : deBytes (beBytes w n) = n := by
  rw [deBytes_beBytes, Nat.mod_eq_of_lt h]

theorem readBytes_append (x r : List Byte) : readBytes x.length (x ++ r) = some (x, r) := by
  simp [readBytes]

theorem readBytes_append' (k : ℕ) (x r : List Byte) (h : x.length = k) :
    readBytes k (x ++ r) = some (x, r) := by
  subst h; exact readBytes_append x r

theorem aeadTag_length (key nonce pt : List Byte) : (aeadTag key nonce pt).length = 16 := by
  simp [aeadTag]

theorem aeadDecrypt_aeadEncrypt (key nonce pt : List Byte) :
    aeadDecrypt key nonce (aeadEncrypt key nonce pt) = some pt := by
  have hlen : (aeadEncrypt key nonce pt).length = pt.length + 16 := by
    simp [aeadEncrypt, aeadTag_length]
  have hsub : (aeadEncrypt key nonce pt).length - 16 = pt.length := by omega
  have htake : (aeadEncrypt key nonce pt).take pt.length = pt := by
    simp [aeadEncrypt]
  have hdrop : (aeadEncrypt key nonce pt).drop pt.length = aeadTag key nonce pt := by
    simp [aeadEncrypt]
  unfold aeadDecrypt
  rw [if_pos (by omega), hsub, htake, hdrop, if_pos rfl]

theorem parseMessage_ser (m : Message) (hm : m.wf) (r : List Byte) :
    parseMessage (serMessage m ++ r) = some (m, r) := by
  cases m with
  | Ping =>
    unfold serMessage parseMessage
    rw [readBytes_append' 4 (beBytes 4 0) r (beBytes_length 4 0)]
    simp [deBytes_beBytes_of_lt (by norm_num : (0:ℕ) < 256 ^ 4)]
  | Pong =>
    unfold serMessage parseMessage
    rw [readBytes_append' 4 (beBytes 4 1) r (beBytes_length 4 1)]
    simp [deBytes_beBytes_of_lt (by norm_num : (1:ℕ) < 256 ^ 4)]
  | StartServer sessid =>
    unfold serMessage parseMessage
    rw [List.append_assoc, readBytes_append' 4 (beBytes 4 2) _ (beBytes_length 4 2)]
    have h8 : readBytes 8 (beBytes 8 sessid ++ r) = some (beBytes 8 sessid, r) :=
      readBytes_append' 8 _ _ (beBytes_length 8 sessid)
    have hs : sessid < 256 ^ 8 := by
      have : (256 : ℕ) ^ 8 = 2 ^ 64 := by norm_num
      rw [this]; exact hm
    simp [h8, deBytes_beBytes_of_lt (by norm_num : (2:ℕ) < 256 ^ 4), deBytes_beBytes_of_lt hs]
  | ServerStarted key =>
    unfold serMessage parseMessage
    rw [List.append_assoc, List.append_assoc,
      readBytes_append' 4 (beBytes 4 3) _ (beBytes_length 4 3)]
    have hs : key.length < 256 ^ 8 := by
      have : (256 : ℕ) ^ 8 = 2 ^ 64 := by norm_num
      rw [this]; exact hm
    have h8 : readBytes 8 (beBytes 8 key.length ++ (key ++ r)) =
        some (beBytes 8 key.length, key ++ r) :=
      readBytes_append' 8 _ _ (beBytes_length 8 key.length)
    have hk : readBytes key.length (key ++ r) = some (key, r) := readBytes_append key r
    simp [h8, hk, deBytes_beBytes_of_lt (by norm_num : (3:ℕ) < 256 ^ 4),
      deBytes_beBytes_of_lt hs]
  | Failed msg =>
    unfold serMessage parseMessage
    rw [List.append_assoc, List.append_assoc,
      readBytes_append' 4 (beBytes 4 4) _ (beBytes_length 4 4)]
    have hs : msg.length < 256 ^ 8 := by
      have : (256 : ℕ) ^ 8 = 2 ^ 64 := by norm_num
      rw [this]; exact hm
    have h8 : readBytes 8 (beBytes 8 msg.length ++ (msg ++ r)) =
        some (beBytes 8 msg.length, msg ++ r) :=
      readBytes_append' 8 _ _ (beBytes_length 8 msg.length)
    have hk : readBytes msg.length (msg ++ r) = some (msg, r) := readBytes_append msg r
    simp [h8, hk, deBytes_beBytes_of_lt (by norm_num : (4:ℕ) < 256 ^ 4),
      deBytes_beBytes_of_lt hs]

theorem parseDatagram_ser (d : Datagram) (h24 : d.nonce.length = 24)
    (hmg : d.magic < 2 ^ 32) (hdl : d.data.length < 2 ^ 64) (r : List Byte) :
    parseDatagram (serDatagram d ++ r) = some (d, r) := by
  unfold serDatagram parseDatagram
  rw [List.append_assoc, List.append_assoc, List.append_assoc,
    readBytes_append' 4 (beBytes 4 d.magic) _ (beBytes_length 4 d.magic)]
  have hm : d.magic < 256 ^ 4 := by
    have : (256 : ℕ) ^ 4 = 2 ^ 32 := by norm_num
    rw [this]; exact hmg
  have hl : d.data.length < 256 ^ 8 := by
    have : (256 : ℕ) ^ 8 = 2 ^ 64 := by norm_num
    rw [this]; exact hdl
  have h24' : readBytes 24 (d.nonce ++ (beBytes 8 d.data.length ++ (d.data ++ r))) =
      some (d.nonce, beBytes 8 d.data.length ++ (d.data ++ r)) :=
    readBytes_append' 24 _ _ h24
  have h8 : readBytes 8 (beBytes 8 d.data.length ++ (d.data ++ r)) =
      some (beBytes 8 d.data.length, d.data ++ r) :=
    readBytes_append' 8 _ _ (beBytes_length 8 d.data.length)
  have hdat : readBytes d.data.length (d.data ++ r) = some (d.data, r) :=
    readBytes_append d.data r
  simp [h24', h8, hdat, deBytes_beBytes_of_lt hm, deBytes_beBytes_of_lt hl]

theorem serDatagram_length (d : Datagram) :
    (serDatagram d).length = 12 + d.nonce.length + d.data.length := by
  simp [serDatagram, beBytes_length]
  omega

theorem deserDatagram_ser (d : Datagram) (h24 : d.nonce.length = 24)
    (hmg : d.magic < 2 ^ 32) (hdl : d.data.length < 2 ^ 64)
    (hsize : (serDatagram d).length ≤ 1024) :
    deserDatagram (serDatagram d) = some d := by
  unfold deserDatagram
  rw [if_pos hsize]
  have h := parseDatagram_ser d h24 hmg hdl []
  rw [List.append_nil] at h
  rw [h]

theorem deserMessage_ser (m : Message) (hm : m.wf)
    (hsize : (serMessage m).length ≤ 1024) :
    deserMessage (serMessage m) = some m := by
  unfold deserMessage
  rw [if_pos hsize]
  have h := parseMessage_ser m hm []
  rw [List.append_nil] at h
  rw [h]

/-- Round trip of the full codec: decrypting an envelope produced by
`encrypt` against the same key and a cache not containing the chosen nonce
succeeds and inserts that nonce, provided the envelope fits the 1024-byte
decode bound (inner serialized form at most 972 bytes: envelope length is
inner length + 52). -/
theorem decrypt_encrypt (m : Message) (key : Key) (n : Nonce) (cache : Finset Nonce)
    (hm : m.wf) (h24 : n.length = 24) (hfresh : n ∉ cache)
    (hsize : (serMessage m).length ≤ 972) :
    decrypt (encrypt m key n) key cache = (insert n cache, .ok m) := by
  have hdl : (aeadEncrypt key n (serMessage m)).length = (serMessage m).length + 16 := by
    simp [aeadEncrypt, aeadTag_length]
  have h64 : (2 : ℕ) ^ 64 = 18446744073709551616 := by norm_num
  have hd : Datagram.mk MAGIC n (aeadEncrypt key n (serMessage m)) =
      { magic := MAGIC, nonce := n, data := aeadEncrypt key n (serMessage m) } := rfl
  unfold encrypt
  rw [show serDatagram { magic := MAGIC, nonce := n, data := aeadEncrypt key n (serMessage m) } =
    serDatagram (Datagram.mk MAGIC n (aeadEncrypt key n (serMessage m))) from rfl]
  unfold decrypt
  rw [deserDatagram_ser _ (by exact h24) (by norm_num [MAGIC]) (by rw [h64]; simp only; omega)
    (by rw [serDatagram_length]; simp only; omega)]
  simp only
  rw [if_neg (by simp [MAGIC]), aeadDecrypt_aeadEncrypt]
  simp [hfresh, deserMessage_ser m hm (by omega)]

/-! ## Client session (`client.rs`)

One `connect` loop iteration per event.  `CEnv` carries the results of the
external calls an iteration may make; `eprintln!` diagnostics are not
modelled. -/

/-- `struct MoshClientState` (the spawned subprocess and its socket are
abstract; only the learned reply address is state the loop reads). -/
structure MoshClientState where
  reply_address : Option Addr

/-- `struct Client` (the bound socket itself is abstract). -/
structure ClientState where
  crypto : Key
  mosh : Option MoshClientState
  past_nonces : Finset Nonce
  destination_address : Addr
  resend_counter : ℕ
  sessid : ℕ
  ping_mode : Bool

deriving instance DecidableEq for MoshClientState
deriving instance DecidableEq for ClientState

/-- Results of the external calls one iteration may perform. -/
structure CEnv where
  publicSendOk : Bool
  moshSendOk : Bool
  startMoshOk : Bool
  encNonce : Nonce

deriving instance DecidableEq for CEnv

/-- One observable wake-up of the `connect` loop: a 200ms poll timeout
(`poll` returned 0), a poll error, or readiness plus the received datagram
of one of the two sockets (`...Err` events are `recv_from` failures). -/
inductive CEvent
  | timeout
  | pollErr
  | publicRecv (pkt : List Byte) (fromaddr : Addr)
  | publicRecvErr
  | moshRecv (pkt : List Byte) (addr : Addr)
  | moshRecvErr

deriving instance DecidableEq for CEvent

/-- Observable sends of the client loop. -/
inductive COut
  | sendPublic (pkt : List Byte) (dest : Addr)
  | sendMosh (pkt : List Byte) (dest : Addr)
  | spawnMoshClient (key : List Byte)

deriving instance DecidableEq for COut

/-- How an iteration ends: keep looping, `return` out of the loop (main
then finishes with `Ok(())` and the process exits with status 0), or
`std::process::exit(code)`. -/
inductive Outcome
  | cont
  | returnToMain
  | exitProcess (code : ℕ)

deriving instance DecidableEq for Outcome

/-- `Client::new`: fresh empty replay cache, resend budget 50, no subsystem. -/
def clientInit (crypto : Key) (dest : Addr) (sessid : ℕ) (ping_mode : Bool) : ClientState :=
  { crypto := crypto, mosh := none, past_nonces := ∅, destination_address := dest,
    resend_counter := 50, sessid := sessid, ping_mode := ping_mode }

/-- The poll timeout chosen at the top of each `connect` iteration:
`-1` (unbounded) once the subsystem exists, else 200 ms. -/
def pollTimeoutMs (st : ClientState) : Int :=
  if st.mosh.isSome then -1 else 200

/-- `Client::send_request`: encrypt `Ping` (ping mode) or
`StartServer{sessid}` and send it to the fixed destination; a send failure
prints and exits with status 3. -/
def sendRequest (st : ClientState) (env : CEnv) : List COut × Outcome :=
  let msg := if st.ping_mode then Message.Ping else Message.StartServer st.sessid
  let pkt := encrypt msg st.crypto env.encNonce
  if env.publicSendOk then ([.sendPublic pkt st.destination_address], .cont)
  else ([.sendPublic pkt st.destination_address], .exitProcess 3)

/-- One iteration of the `connect` loop body (`client.rs` lines 63-182). -/
def clientStep (st : ClientState) (env : CEnv) (ev : CEvent) :
    ClientState × List COut × Outcome :=
  match ev with
  | .pollErr => (st, [], .returnToMain)
  | .timeout =>
    if st.resend_counter > 0 then
      let st' := { st with resend_counter := st.resend_counter - 1 }
      let r := sendRequest st' env
      (st', r.1, r.2)
    else if st.mosh.isNone then (st, [], .exitProcess 2)
    else (st, [], .cont)
  | .publicRecvErr => (st, [], .cont)
  | .publicRecv pkt fromaddr =>
    if fromaddr ≠ st.destination_address then (st, [], .cont)
    else
      match decrypt pkt st.crypto st.past_nonces with
      | (cache', .error _) =>
        let st' := { st with past_nonces := cache' }
        match st'.mosh with
        | some mosh =>
          match mosh.reply_address with
          | some reply_addr =>
            if env.moshSendOk then (st', [.sendMosh pkt reply_addr], .cont)
            else (st', [.sendMosh pkt reply_addr], .returnToMain)
          | none => (st', [], .cont)
        | none => (st', [], .cont)
      | (cache', .ok msg) =>
        let st' := { st with past_nonces := cache' }
        match msg with
        | .Ping => (st', [], .cont)
        | .Pong => if st'.ping_mode then (st', [], .returnToMain) else (st', [], .cont)
        | .ServerStarted key =>
          if st'.ping_mode then (st', [], .cont)
          else if env.startMoshOk then
            ({ st' with mosh := some { reply_address := none } }, [.spawnMoshClient key], .cont)
          else (st', [.spawnMoshClient key], .exitProcess 3)
        | .StartServer _ => (st', [], .cont)
        | .Failed _ => (st', [], .exitProcess 1)
  | .moshRecvErr =>
    match st.mosh with
    | some _ => (st, [], .exitProcess 1)
    | none => (st, [], .cont)
  | .moshRecv pkt addr =>
    match st.mosh with
    | some mosh =>
      let mosh' := if mosh.reply_address.isNone then { reply_address := some addr } else mosh
      if some addr ≠ mosh'.reply_address then ({ st with mosh := some mosh' }, [], .cont)
      else ({ st with mosh := some mosh' },
        [.sendPublic pkt st.destination_address], .cont)
    | none => (st, [], .cont)

/-- Run the loop over a list of events, stopping at the first iteration
whose outcome is not `cont`; collects all outputs along the way. -/
def clientRun (st : ClientState) (evs : List (CEnv × CEvent)) :
    ClientState × List COut × Outcome :=
  match evs with
  | [] => (st, [], .cont)
  | (env, ev) :: rest =>
    let r := clientStep st env ev
    match r.2.2 with
    | .cont =>
      let r' := clientRun r.1 rest
      (r'.1, r.2.1 ++ r'.2.1, r'.2.2)
    | oc => (r.1, r.2.1, oc)

/-- `Client::connect`: the initial `send_request` before the loop, then the
loop itself. -/
def clientConnect (st : ClientState) (env0 : CEnv) (evs : List (CEnv × CEvent)) :
    ClientState × List COut × Outcome :=
  let r0 := sendRequest st env0
  match r0.2 with
  | .cont =>
    let r := clientRun st evs
    (r.1, r0.1 ++ r.2.1, r.2.2)
  | oc => (st, r0.1, oc)

/-- Number of datagrams sent on the public socket among the outputs. -/
def countPublicSends (outs : List COut) : ℕ :=
  (outs.filter fun o => match o with | .sendPublic _ _ => true | _ => false).length

/-! ## Server session (`server.rs`) -/

/-- `struct MoshState` (the bound-and-connected relay socket is abstract;
`key` is the `String` captured from the subprocess output, as bytes). -/
structure MoshState where
  key : List Byte
  sessid : ℕ

/-- `struct Server` (the bound public socket is abstract). -/
structure ServerState where
  crypto : Key
  mosh : Option MoshState
  past_nonces : Finset Nonce
  recent_client_addr : Option Addr

deriving instance DecidableEq for MoshState
deriving instance DecidableEq for ServerState

/-- `Server::new`. -/
def serverInit (crypto : Key) : ServerState :=
  { crypto := crypto, mosh := none, past_nonces := ∅, recent_client_addr := none }

/-- Is the byte ASCII whitespace (`char::is_ascii_whitespace`: space, tab,
line feed, form feed, carriage return)?  Used by
`split_ascii_whitespace`. -/
def isAsciiWs (b : Byte) : Bool :=
  b.val = 32 || b.val = 9 || b.val = 10 || b.val = 12 || b.val = 13

/-- `split_ascii_whitespace` on a byte string: maximal non-whitespace runs,
empty runs dropped. -/
def asciiWords (l : List Byte) : List (List Byte) :=
  let r := l.foldr
    (fun b acc =>
      if isAsciiWs b then ([], if acc.1 = ([] : List Byte) then acc.2 else acc.1 :: acc.2)
      else (b :: acc.1, acc.2))
    (([] : List Byte), ([] : List (List Byte)))
  if r.1 = [] then r.2 else r.1 :: r.2

/-- `port.parse::<u16>()`: optional leading plus sign, then ASCII digits
only, value within `u16` range. -/
def parsePort (w : List Byte) : Option ℕ :=
  let ds := match w with
    | b :: rest => if b.val = 43 then rest else w
    | [] => w
  if ds ≠ [] ∧ ds.all (fun b => decide (48 ≤ b.val ∧ b.val ≤ 57)) then
    let v := ds.foldl (fun acc b => acc * 10 + (b.val - 48)) 0
    if v ≤ 65535 then some v else none
  else none

/-- The ASCII bytes of `"MOSH CONNECT"` (the `line.starts_with` pattern). -/
def moshConnectMarker : List Byte :=
  [77, 79, 83, 72, 32, 67, 79, 78, 78, 69, 67, 84]

/-- The distinct `anyhow` failure exits of `Server::start_mosh_server`
(the exact diagnostic text is abstracted to a token; see `bootErrMsg`). -/
inductive BootErr
  | spawnFailed
  | nonZeroExit
  | malformedLine
  | badPort
  | bindFailed
  | noConnectLine

deriving instance DecidableEq for BootErr

/-- The diagnostic text `format!("{}", e)` sent back in `Failed{msg}`,
abstracted to a distinct byte token per failure. -/
def bootErrMsg : BootErr → List Byte
  | .spawnFailed => [0]
  | .nonZeroExit => [1]
  | .malformedLine => [2]
  | .badPort => [3]
  | .bindFailed => [4]
  | .noConnectLine => [5]

/-- The `for line in l.lines()` scan of `Server::start_mosh_server`: first
line starting with `MOSH CONNECT` is split on ASCII whitespace; fewer than
4 words is malformed, the 3rd word must parse as a `u16` port, the 4th is
the key.  Lines before the first match are skipped; no match at all is an
error. -/
def findMoshConnect : List (List Byte) → Except BootErr (ℕ × List Byte)
  | [] => .error .noConnectLine
  | line :: rest =>
    if moshConnectMarker.isPrefixOf line then
      let words := asciiWords line
      if words.length < 4 then .error .malformedLine
      else
        match parsePort (words.getD 2 []) with
        | none => .error .badPort
        | some port => .ok (port, words.getD 3 [])
    else findMoshConnect rest

/-- `Server::start_mosh_server`: `spawnRes` is the result of
`cmd.output()` (`none` = spawn error, otherwise exit-status success flag
and captured stdout lines); `bindConnectOk` is the result of the
`UdpSocket::bind` + `connect` pair.  The parsed port number only feeds the
abstracted socket, so it is dropped from the returned state. -/
def start_mosh_server (sessid : ℕ) (spawnRes : Option (Bool × List (List Byte)))
    (bindConnectOk : Bool) : Except BootErr MoshState :=
  match spawnRes with
  | none => .error .spawnFailed
  | some (success, outLines) =>
    if success then
      match findMoshConnect outLines with
      | .error e => .error e
      | .ok (_port, key) =>
        if bindConnectOk then .ok { key := key, sessid := sessid } else .error .bindFailed
    else .error .nonZeroExit

/-- Results of the external calls one `serve` iteration may perform. -/
structure SEnv where
  moshSendOk : Bool
  moshSrvRes : Option (Bool × List (List Byte))
  bindConnectOk : Bool
  encOk : Bool
  encNonce : Nonce

deriving instance DecidableEq for SEnv

/-- One observable wake-up of the `serve` loop. -/
inductive SEvent
  | publicRecv (pkt : List Byte) (clientaddr : Addr)
  | publicRecvErr
  | moshRecv (pkt : List Byte)
  | moshRecvErr
  | pollErr

deriving instance DecidableEq for SEvent

/-- Observable sends of the server loop (`sendMosh` is `mosh.socket.send`
on the connected relay socket; `spawnMoshServer` marks an actual
`start_mosh_server` invocation). -/
inductive SOut
  | sendPublic (pkt : List Byte) (dest : Addr)
  | sendMosh (pkt : List Byte)
  | spawnMoshServer (sessid : ℕ)

deriving instance DecidableEq for SOut

/-- The `match msg` dispatch of `Server::serve` (lines 85-121): returns the
updated state, the optional reply message, and the spawn effects. -/
def handleMessage (st : ServerState) (env : SEnv) (clientaddr : Addr) (msg : Message) :
    ServerState × Option Message × List SOut :=
  match msg with
  | .Ping => (st, some .Pong, [])
  | .Pong => (st, none, [])
  | .ServerStarted _ => (st, none, [])
  | .Failed _ => (st, none, [])
  | .StartServer sessid =>
    let st1 := { st with recent_client_addr := some clientaddr }
    let reply : Option Message :=
      match st1.mosh with
      | some mosh => if mosh.sessid = sessid then some (.ServerStarted mosh.key) else none
      | none => none
    if reply.isNone then
      match start_mosh_server sessid env.moshSrvRes env.bindConnectOk with
      | .ok mosh =>
        ({ st1 with mosh := some mosh }, some (.ServerStarted mosh.key),
          [.spawnMoshServer sessid])
      | .error e =>
        ({ st1 with mosh := none }, some (.Failed (bootErrMsg e)), [.spawnMoshServer sessid])
    else (st1, reply, [])

/-- One iteration of the `serve` loop body (`server.rs` lines 46-152). -/
def serverStep (st : ServerState) (env : SEnv) (ev : SEvent) :
    ServerState × List SOut × Outcome :=
  match ev with
  | .pollErr => (st, [], .returnToMain)
  | .publicRecvErr => (st, [], .cont)
  | .publicRecv pkt clientaddr =>
    match decrypt pkt st.crypto st.past_nonces with
    | (cache', .error _) =>
      let st' := { st with past_nonces := cache' }
      match st'.mosh with
      | some _ =>
        if env.moshSendOk then (st', [.sendMosh pkt], .cont)
        else ({ st' with mosh := none }, [.sendMosh pkt], .cont)
      | none => (st', [], .cont)
    | (cache', .ok msg) =>
      let cache'' := if 1000000 < cache'.card then (∅ : Finset Nonce) else cache'
      let st' := { st with past_nonces := cache'' }
      let r := handleMessage st' env clientaddr msg
      match r.2.1 with
      | some reply =>
        if env.encOk then
          (r.1, r.2.2 ++ [.sendPublic (encrypt reply r.1.crypto env.encNonce) clientaddr], .cont)
        else (r.1, r.2.2, .cont)
      | none => (r.1, r.2.2, .cont)
  | .moshRecvErr =>
    match st.mosh with
    | some _ => ({ st with mosh := none }, [], .cont)
    | none => (st, [], .cont)
  | .moshRecv pkt =>
    match st.mosh with
    | some _ =>
      match st.recent_client_addr with
      | some ca => (st, [.sendPublic pkt ca], .cont)
      | none => (st, [], .cont)
    | none => (st, [], .cont)

/-- Run the `serve` loop over a list of events, stopping at the first
iteration whose outcome is not `cont`. -/
def serverRun (st : ServerState) (evs : List (SEnv × SEvent)) :
    ServerState × List SOut × Outcome :=
  match evs with
  | [] => (st, [], .cont)
  | (env, ev) :: rest =>
    let r := serverStep st env ev
    match r.2.2 with
    | .cont =>
      let r' := serverRun r.1 rest
      (r'.1, r.2.1 ++ r'.2.1, r'.2.2)
    | oc => (r.1, r.2.1, oc)

/-! ## Concrete values used by witnesses and counterexamples -/

/-- A concrete 32-byte (256-bit) key. -/
def keyW : Key := List.replicate 32 (0 : Byte)

/-- A concrete 24-byte nonce. -/
def nonceW : Nonce := List.replicate 24 (0 : Byte)

/-- A well-formed authenticated envelope whose inner plaintext (`[255]`)
fails to deserialize as a `Message`. -/
def badInnerEnvelope : List Byte :=
  serDatagram { magic := MAGIC, nonce := nonceW, data := aeadEncrypt keyW nonceW [255] }

/-! ## Claims about the protocol codec -/

set_option maxRecDepth 8192 in
/-- C3 (as stated, refuted): the round trip is not universal.  For the
message `Failed{msg}` with a 1024-byte `msg`, the encrypted envelope is
1088 bytes long, so `decrypt` rejects it at the outer 1024-byte decode
bound instead of returning the message. -/
theorem C3_counterexample :
    (decrypt (encrypt (.Failed (List.replicate 1024 (0 : Byte))) keyW nonceW) keyW ∅).2
      = .error .envelopeDecode := by
  have hsm : (serMessage (.Failed (List.replicate 1024 (0 : Byte)))).length = 1036 := by
    rw [serMessage]
    rw [List.length_append, List.length_append, beBytes_length, beBytes_length,
      List.length_replicate]
  have hae : (aeadEncrypt keyW nonceW
      (serMessage (.Failed (List.replicate 1024 (0 : Byte))))).length = 1052 := by
    rw [aeadEncrypt, List.length_append, aeadTag_length, hsm]
  have hlen : (encrypt (.Failed (List.replicate 1024 (0 : Byte))) keyW nonceW).length = 1088 := by
    unfold encrypt
    rw [serDatagram_length]
    show 12 + nonceW.length + (aeadEncrypt keyW nonceW
      (serMessage (.Failed (List.replicate 1024 (0 : Byte))))).length = 1088
    rw [hae]
    norm_num [nonceW]
  have hnone : deserDatagram
      (encrypt (.Failed (List.replicate 1024 (0 : Byte))) keyW nonceW) = none := by
    unfold deserDatagram
    rw [if_neg (by rw [hlen]; norm_num)]
  unfold decrypt
  rw [hnone]

/-- C3 (amended): for every message whose serialized inner form is at most
972 bytes (so the envelope, inner length + 52, fits the 1024-byte decode
bound), every 256-bit key and every 24-byte nonce, decrypting the result
of encrypting the message succeeds against a fresh cache and returns the
same message (inserting the nonce into the cache). -/
theorem C3_roundtrip (m : Message) (k : Key) (n : Nonce) (hm : m.wf) (_hk : k.length = 32)
    (h24 : n.length = 24) (hsize : (serMessage m).length ≤ 972) :
    decrypt (encrypt m k n) k ∅ = ({n}, .ok m) := by
  simpa using decrypt_encrypt m k n ∅ hm h24 (Finset.not_mem_empty n) hsize

theorem C3_roundtrip_witness :
    (Message.Ping.wf ∧ keyW.length = 32 ∧ nonceW.length = 24 ∧ (serMessage .Ping).length ≤ 972)
    ∧ decrypt (encrypt .Ping keyW nonceW) keyW ∅ = ({nonceW}, .ok .Ping) :=
  ⟨⟨by decide, by decide, by decide, by decide⟩,
    C3_roundtrip .Ping keyW nonceW (by decide) (by decide) (by decide) (by decide)⟩

/-- C4: if decrypting an envelope against some cache succeeds (so the
envelope is valid and its nonce was not yet cached), decrypting the
identical envelope again — against the cache as the first call left it —
fails with the replay error (`"Replay attack"`). -/
theorem decrypt_of_deser_none {env : List Byte} (k : Key) (cache : Finset Nonce)
    (hd : deserDatagram env = none) :
    decrypt env k cache = (cache, .error .envelopeDecode) := by
  unfold decrypt; rw [hd]

theorem decrypt_of_deser_some {env : List Byte} (k : Key) (cache : Finset Nonce) {d : Datagram}
    (hd : deserDatagram env = some d) :
    decrypt env k cache =
      if d.magic ≠ MAGIC then (cache, .error .magicMismatch)
      else
        match aeadDecrypt k d.nonce d.data with
        | none => (cache, .error .authFailure)
        | some buf =>
          if d.nonce ∈ cache then (cache, .error .replay)
          else
            match deserMessage buf with
            | some m => (insert d.nonce cache, .ok m)
            | none => (insert d.nonce cache, .error .innerDecode) := by
  unfold decrypt; rw [hd]

theorem C4_replay (env : List Byte) (k : Key) (cache cache' : Finset Nonce) (m : Message)
    (h : decrypt env k cache = (cache', .ok m)) :
    decrypt env k cache' = (cache', .error .replay) := by
  rcases hd : deserDatagram env with _ | d
  · rw [decrypt_of_deser_none k cache hd] at h; simp at h
  · rw [decrypt_of_deser_some k cache hd] at h
    rw [decrypt_of_deser_some k cache' hd]
    by_cases hmg : d.magic ≠ MAGIC
    · rw [if_pos hmg] at h; simp at h
    · rw [if_neg hmg] at h
      rw [if_neg hmg]
      rcases ha : aeadDecrypt k d.nonce d.data with _ | buf
      · simp only [ha] at h; simp at h
      · simp only [ha] at h ⊢
        by_cases hmem : d.nonce ∈ cache
        · rw [if_pos hmem] at h; simp at h
        · rw [if_neg hmem] at h
          rcases hm2 : deserMessage buf with _ | m'
          · simp only [hm2] at h; simp at h
          · simp only [hm2] at h
            have hc : insert d.nonce cache = cache' := by
              simpa using congrArg Prod.fst h
            rw [if_pos (by rw [← hc]; exact Finset.mem_insert_self _ _)]

theorem C4_replay_witness :
    decrypt (encrypt .Ping keyW nonceW) keyW ∅ = ({nonceW}, .ok .Ping)
    ∧ decrypt (encrypt .Ping keyW nonceW) keyW {nonceW} = ({nonceW}, .error .replay) :=
  ⟨by decide, C4_replay _ keyW ∅ {nonceW} .Ping (by decide)⟩

/-- C9: `decrypt` touches the replay cache exactly at the nonce-insertion
point, which is reached iff AEAD authentication succeeds: (1) on a
magic-mismatch, envelope-decode or authentication failure the cache is
returned unchanged; (2) whenever the envelope decodes, the magic matches
and AEAD decryption succeeds, the resulting cache is `insert nonce cache`
(a no-op set-wise when the nonce was already present, i.e. on replay);
(3) the nonce is inserted before the inner message is parsed, so an
authenticated datagram whose inner payload fails to deserialize still
consumes its nonce: decrypting the identical bytes again, against the
cache the failed call produced, fails as a replay. -/
theorem C9_cache_mutation (env : List Byte) (k : Key) (cache : Finset Nonce) :
    ((decrypt env k cache).2 = .error .envelopeDecode ∨
      (decrypt env k cache).2 = .error .magicMismatch ∨
      (decrypt env k cache).2 = .error .authFailure →
      (decrypt env k cache).1 = cache)
    ∧ (∀ d pt, deserDatagram env = some d → d.magic = MAGIC →
        aeadDecrypt k d.nonce d.data = some pt →
        (decrypt env k cache).1 = insert d.nonce cache)
    ∧ ((decrypt env k cache).2 = .error .innerDecode →
        (decrypt env k ((decrypt env k cache).1)).2 = .error .replay) := by
  rcases hd : deserDatagram env with _ | d
  · rw [decrypt_of_deser_none k cache hd]
    refine ⟨fun _ => rfl, ?_, ?_⟩
    · intro d pt hd' _ _
      simp at hd'
    · intro h
      simp at h
  · have hds : ∀ c : Finset Nonce, decrypt env k c =
        if d.magic ≠ MAGIC then (c, .error .magicMismatch)
        else
          match aeadDecrypt k d.nonce d.data with
          | none => (c, .error .authFailure)
          | some buf =>
            if d.nonce ∈ c then (c, .error .replay)
            else
              match deserMessage buf with
              | some m => (insert d.nonce c, .ok m)
              | none => (insert d.nonce c, .error .innerDecode) :=
      fun c => decrypt_of_deser_some k c hd
    by_cases hmg : d.magic ≠ MAGIC
    · rw [hds cache, if_pos hmg]
      refine ⟨fun _ => rfl, ?_, ?_⟩
      · intro d' pt hd' hmg' _
        cases hd'
        exact absurd hmg' hmg
      · intro h
        simp at h
    · rcases ha : aeadDecrypt k d.nonce d.data with _ | buf
      · rw [hds cache, if_neg hmg]
        simp only [ha]
        refine ⟨?_, ?_, ?_⟩
        · intro _
          first
          | rfl
          | trivial
        · intro d' pt hd' _ ha'
          cases hd'
          rw [ha] at ha'
          cases ha'
        · intro h
          simp at h
      · by_cases hmem : d.nonce ∈ cache
        · have hv : decrypt env k cache = (cache, .error .replay) := by
            rw [hds cache, if_neg hmg]
            simp only [ha]
            rw [if_pos hmem]
          rw [hv]
          refine ⟨fun _ => rfl, ?_, ?_⟩
          · intro d' pt hd' _ _
            cases hd'
            exact (Finset.insert_eq_self.mpr hmem).symm
          · intro h
            simp at h
        · rcases hm2 : deserMessage buf with _ | m'
          · have hv : decrypt env k cache = (insert d.nonce cache, .error .innerDecode) := by
              rw [hds cache, if_neg hmg]
              simp only [ha, hm2]
              rw [if_neg hmem]
            rw [hv]
            refine ⟨?_, ?_, ?_⟩
            · intro h
              simp at h
            · intro d' pt hd' _ _
              cases hd'
              rfl
            · intro _
              rw [hds (insert d.nonce cache), if_neg hmg]
              simp only [ha]
              rw [if_pos (Finset.mem_insert_self _ _)]
          · have hv : decrypt env k cache = (insert d.nonce cache, .ok m') := by
              rw [hds cache, if_neg hmg]
              simp only [ha, hm2]
              rw [if_neg hmem]
            rw [hv]
            refine ⟨?_, ?_, ?_⟩
            · intro h
              simp at h
            · intro d' pt hd' _ _
              cases hd'
              rfl
            · intro h
              simp at h

theorem C9_cache_mutation_witness :
    (decrypt badInnerEnvelope keyW ∅).2 = .error .innerDecode
    ∧ (decrypt badInnerEnvelope keyW ((decrypt badInnerEnvelope keyW ∅).1)).2
        = .error .replay :=
  ⟨by decide, (C9_cache_mutation badInnerEnvelope keyW ∅).2.2 (by decide)⟩

/-! ## Claims about the client session -/

theorem countPublicSends_append (a b : List COut) :
    countPublicSends (a ++ b) = countPublicSends a + countPublicSends b := by
  simp [countPublicSends]

theorem clientRun_cons (st : ClientState) (env : CEnv) (ev : CEvent)
    (rest : List (CEnv × CEvent)) :
    clientRun st ((env, ev) :: rest)
      = match (clientStep st env ev).2.2 with
        | .cont =>
          ((clientRun (clientStep st env ev).1 rest).1,
            (clientStep st env ev).2.1 ++ (clientRun (clientStep st env ev).1 rest).2.1,
            (clientRun (clientStep st env ev).1 rest).2.2)
        | oc => ((clientStep st env ev).1, (clientStep st env ev).2.1, oc) := rfl

/-- Running the `connect` loop from a `Requesting` state (no subsystem)
with resend budget `k` over `k + 1` consecutive poll timeouts performs `k`
resends and then exits with status 2. -/
theorem clientRun_timeouts (env : CEnv) (hsend : env.publicSendOk = true) :
    ∀ (k : ℕ) (st : ClientState), st.mosh = none → st.resend_counter = k →
      countPublicSends (clientRun st (List.replicate (k + 1) (env, CEvent.timeout))).2.1 = k
      ∧ (clientRun st (List.replicate (k + 1) (env, CEvent.timeout))).2.2 = .exitProcess 2 := by
  intro k
  induction k with
  | zero =>
    intro st hm hc
    simp [clientRun, clientStep, hc, hm, countPublicSends, List.replicate]
  | succ n ih =>
    intro st hm hc
    have hstep : clientStep st env .timeout
        = ({ st with resend_counter := n },
            [.sendPublic (encrypt (if st.ping_mode then Message.Ping
                else Message.StartServer st.sessid) st.crypto env.encNonce)
              st.destination_address], .cont) := by
      simp [clientStep, hc, sendRequest, hsend]
    have ih' := ih { st with resend_counter := n } (by simpa using hm) rfl
    rw [List.replicate_succ, clientRun_cons, hstep]
    dsimp only
    refine ⟨?_, ?_⟩
    · rw [countPublicSends_append, ih'.1]
      simp [countPublicSends]
      omega
    · exact ih'.2

/-- C5: starting from `Client::new` (resend budget 50), an initiator that
observes nothing but poll timeouts — no replies at all — sends exactly 51
request datagrams (the initial `send_request` plus 50 resends) and on the
51st timeout exits with status 2; this holds in ping mode and normal mode
alike, and the poll timeout in force throughout the `Requesting` state is
200 ms. -/
theorem C5_resend_bound (key : Key) (dest : Addr) (sessid : ℕ) (ping : Bool) (env : CEnv)
    (hsend : env.publicSendOk = true) :
    countPublicSends
        (clientConnect (clientInit key dest sessid ping) env
          (List.replicate 51 (env, CEvent.timeout))).2.1 = 51
    ∧ (clientConnect (clientInit key dest sessid ping) env
        (List.replicate 51 (env, CEvent.timeout))).2.2 = .exitProcess 2
    ∧ pollTimeoutMs (clientInit key dest sessid ping) = 200 := by
  have hrun := clientRun_timeouts env hsend 50 (clientInit key dest sessid ping) rfl rfl
  norm_num at hrun
  have h0 : sendRequest (clientInit key dest sessid ping) env
      = ([.sendPublic (encrypt (if ping then Message.Ping else Message.StartServer sessid)
          (clientInit key dest sessid ping).crypto env.encNonce) dest], .cont) := by
    simp [sendRequest, clientInit, hsend]
  refine ⟨?_, ?_, ?_⟩
  · simp only [clientConnect, h0]
    rw [countPublicSends_append, hrun.1]
    simp [countPublicSends]
  · simp only [clientConnect, h0]
    exact hrun.2
  · simp [pollTimeoutMs, clientInit]

/-- A concrete environment in which every external call succeeds. -/
def envW : CEnv :=
  { publicSendOk := true, moshSendOk := true, startMoshOk := true, encNonce := nonceW }

theorem C5_resend_bound_witness :
    envW.publicSendOk = true
    ∧ countPublicSends
        (clientConnect (clientInit keyW 5 0 false) envW
          (List.replicate 51 (envW, CEvent.timeout))).2.1 = 51
    ∧ (clientConnect (clientInit keyW 5 0 false) envW
        (List.replicate 51 (envW, CEvent.timeout))).2.2 = .exitProcess 2 :=
  ⟨rfl, (C5_resend_bound keyW 5 0 false envW rfl).1,
    (C5_resend_bound keyW 5 0 false envW rfl).2.1⟩

/-- An established client state: subsystem active, peer address learned. -/
def estClientState : ClientState :=
  { crypto := keyW, mosh := some { reply_address := some 7 }, past_nonces := ∅,
    destination_address := 5, resend_counter := 50, sessid := 0, ping_mode := false }

/-- An environment in which the relay-socket send fails. -/
def envSendFail : CEnv :=
  { publicSendOk := true, moshSendOk := false, startMoshOk := true, encNonce := nonceW }

/-- C2 (as stated, refuted): in the established client, when forwarding an
unauthenticatable public-socket datagram to the learned peer fails, the
code prints `Mosh client socket closed` and executes `return`, leaving the
event loop — it does not call `std::process::exit(1)`.  The concrete step
below takes exactly that path and its outcome is `returnToMain`, not
`exitProcess 1`. -/
theorem C2_counterexample :
    (clientStep estClientState envSendFail (.publicRecv [0] 5)).2.2 = .returnToMain
    ∧ Outcome.returnToMain ≠ .exitProcess 1 :=
  ⟨by decide, by decide⟩

/-- C2 (amended): in the client role after a session is established, if
forwarding an unauthenticatable public-socket datagram to the learned peer
address fails to send on the local relay socket, `connect` returns to
`main`, which finishes with `Ok(())` — the process terminates with exit
status 0, not 1.  (Exit status 1 on the relay socket is reserved for a
`recv` failure, `client.rs` line 168.) -/
theorem C2_relay_send_failure (st : ClientState) (env : CEnv) (pkt : List Byte)
    (mosh : MoshClientState) (ra : Addr) (e : DecryptError)
    (hm : st.mosh = some mosh) (hra : mosh.reply_address = some ra)
    (hdec : (decrypt pkt st.crypto st.past_nonces).2 = .error e)
    (hfail : env.moshSendOk = false) :
    clientStep st env (.publicRecv pkt st.destination_address)
      = ({ st with past_nonces := (decrypt pkt st.crypto st.past_nonces).1 },
          [.sendMosh pkt ra], .returnToMain) := by
  rcases hd : decrypt pkt st.crypto st.past_nonces with ⟨cache', res⟩
  rw [hd] at hdec
  simp only at hdec
  subst hdec
  simp [clientStep, hd, hm, hra, hfail]

theorem C2_relay_send_failure_witness :
    (estClientState.mosh = some { reply_address := some 7 }
      ∧ (decrypt [0] estClientState.crypto estClientState.past_nonces).2
          = .error .envelopeDecode
      ∧ envSendFail.moshSendOk = false)
    ∧ clientStep estClientState envSendFail (.publicRecv [0] 5)
        = ({ estClientState with
              past_nonces := (decrypt [0] estClientState.crypto estClientState.past_nonces).1 },
            [.sendMosh [0] 7], .returnToMain) :=
  ⟨⟨by decide, by decide, by decide⟩,
    C2_relay_send_failure estClientState envSendFail [0] { reply_address := some 7 } 7
      .envelopeDecode (by decide) (by decide) (by decide) (by decide)⟩

/-- A batch of inbound relay-socket packets as loop events. -/
def moshEvents (env : CEnv) (l : List (List Byte × Addr)) : List (CEnv × CEvent) :=
  l.map fun pa => (env, CEvent.moshRecv pa.1 pa.2)

/-- Once the peer address is pinned to `a0`, processing any batch of
inbound relay packets leaves the state unchanged and forwards exactly the
packets whose source is `a0` to the public socket. -/
theorem clientRun_pinned (env : CEnv) (a0 : Addr) :
    ∀ (l : List (List Byte × Addr)) (st : ClientState),
      st.mosh = some { reply_address := some a0 } →
      clientRun st (moshEvents env l)
        = (st, ((l.filter fun pa => pa.2 = a0).map
            fun pa => COut.sendPublic pa.1 st.destination_address), .cont) := by
  intro l
  induction l with
  | nil =>
    intro st _
    simp [moshEvents, clientRun]
  | cons pa rest ih =>
    intro st hm
    obtain ⟨p, a⟩ := pa
    have hrest : clientRun st (moshEvents env ((p, a) :: rest))
        = clientRun st ((env, CEvent.moshRecv p a) :: moshEvents env rest) := rfl
    rw [hrest, clientRun_cons]
    have hupd : { st with mosh := some { reply_address := some a0 } } = st := by
      rw [← hm]
    by_cases ha : a = a0
    · subst ha
      have hstep : clientStep st env (.moshRecv p a)
          = (st, [.sendPublic p st.destination_address], .cont) := by
        simp only [clientStep, hm]
        simp [hupd]
      rw [hstep]
      dsimp only
      rw [ih st hm]
      simp [List.filter_cons]
    · have hstep : clientStep st env (.moshRecv p a) = (st, [], .cont) := by
        simp only [clientStep, hm]
        simp [hupd, ha]
      rw [hstep]
      dsimp only
      rw [ih st hm]
      simp [List.filter_cons, ha]

/-- C8: on the initiator's local relay socket, the source address of the
first packet received is pinned as the peer address, and over any
subsequent sequence of relay packets exactly those whose source equals the
pinned address are forwarded to the public socket — every packet from a
different source is discarded, and the pinned address never changes. -/
theorem C8_address_pinning (st : ClientState) (mosh : MoshClientState) (env : CEnv)
    (p0 : List Byte) (a0 : Addr) (rest : List (List Byte × Addr))
    (hm : st.mosh = some mosh) (hra : mosh.reply_address = none) :
    clientRun st ((env, CEvent.moshRecv p0 a0) :: moshEvents env rest)
      = ({ st with mosh := some { reply_address := some a0 } },
          COut.sendPublic p0 st.destination_address ::
            ((rest.filter fun pa => pa.2 = a0).map
              fun pa => COut.sendPublic pa.1 st.destination_address), .cont) := by
  have hmosh : mosh = { reply_address := none } := by
    cases mosh
    simp_all
  subst hmosh
  have hstep : clientStep st env (.moshRecv p0 a0)
      = ({ st with mosh := some { reply_address := some a0 } },
          [.sendPublic p0 st.destination_address], .cont) := by
    simp [clientStep, hm, Option.isNone]
  rw [clientRun_cons, hstep]
  dsimp only
  rw [clientRun_pinned env a0 rest { st with mosh := some { reply_address := some a0 } }
    (by simp)]
  simp

theorem C8_address_pinning_witness :
    ({ estClientState with mosh := some { reply_address := none } } : ClientState).mosh
        = some { reply_address := none }
    ∧ clientRun { estClientState with mosh := some { reply_address := none } }
        ((envW, CEvent.moshRecv [1] 3) :: moshEvents envW [([2], 4), ([3], 3)])
      = ({ estClientState with mosh := some { reply_address := some 3 } },
          [COut.sendPublic [1] 5, COut.sendPublic [3] 5], .cont) :=
  ⟨rfl, by
    have h := C8_address_pinning { estClientState with mosh := some { reply_address := none } }
      { reply_address := none } envW [1] 3 [([2], 4), ([3], 3)] rfl rfl
    simpa [estClientState] using h⟩

/-! ## Claims about the server session -/

/-- C6: while a subsystem is active and its stored session id equals the
incoming `sessid`, an authenticated `StartServer{sessid}` is answered with
`ServerStarted` carrying the existing stored key, no bootstrap is invoked
(no spawn effect) and the subsystem state is kept; handling a second such
message yields a reply carrying the identical key, again without
spawning. -/
theorem C6_idempotent_start (st : ServerState) (env env' : SEnv) (a a' : Addr)
    (m : MoshState) (hm : st.mosh = some m) :
    (handleMessage st env a (.StartServer m.sessid)).2.1 = some (.ServerStarted m.key)
    ∧ (handleMessage st env a (.StartServer m.sessid)).2.2 = []
    ∧ (handleMessage st env a (.StartServer m.sessid)).1.mosh = some m
    ∧ (handleMessage (handleMessage st env a (.StartServer m.sessid)).1 env' a'
        (.StartServer m.sessid)).2.1 = some (.ServerStarted m.key)
    ∧ (handleMessage (handleMessage st env a (.StartServer m.sessid)).1 env' a'
        (.StartServer m.sessid)).2.2 = [] := by
  have h1 : handleMessage st env a (.StartServer m.sessid)
      = ({ st with recent_client_addr := some a }, some (.ServerStarted m.key), []) := by
    simp [handleMessage, hm]
  have h2 : handleMessage { st with recent_client_addr := some a } env' a'
      (.StartServer m.sessid)
      = ({ st with recent_client_addr := some a' }, some (.ServerStarted m.key), []) := by
    simp [handleMessage, hm]
  rw [h1]
  refine ⟨rfl, rfl, by simp [hm], ?_, ?_⟩ <;> simp only [h2]

def mWit : MoshState := { key := [75, 69, 89], sessid := 42 }

/-- The ASCII bytes of `MOSH CONNECT 60001 KEY`, a well-formed
`mosh-server` announcement line. -/
def connectLine : List Byte :=
  [77, 79, 83, 72, 32, 67, 79, 78, 78, 69, 67, 84, 32, 54, 48, 48, 48, 49, 32, 75, 69, 89]

/-- A concrete server environment whose subsystem bootstrap succeeds with
`connectLine` on stdout. -/
def envB : SEnv :=
  { moshSendOk := true, moshSrvRes := some (true, [connectLine]), bindConnectOk := true,
    encOk := true, encNonce := nonceW }

theorem C6_idempotent_start_witness :
    ({ serverInit keyW with mosh := some mWit } : ServerState).mosh = some mWit
    ∧ (handleMessage { serverInit keyW with mosh := some mWit } envB 9
        (.StartServer 42)).2.1 = some (.ServerStarted mWit.key)
    ∧ (handleMessage { serverInit keyW with mosh := some mWit } envB 9
        (.StartServer 42)).2.2 = [] :=
  ⟨rfl,
    (C6_idempotent_start { serverInit keyW with mosh := some mWit } envB envB 9 9 mWit rfl).1,
    (C6_idempotent_start { serverInit keyW with mosh := some mWit } envB envB 9 9 mWit
      rfl).2.1⟩

/-- C7: every subsystem bootstrap failure while handling an authenticated
`StartServer` — spawn error, non-zero exit status, or malformed
`MOSH CONNECT` output — makes the responder clear its subsystem state and
reply `Failed` with the diagnostic, after which a later `StartServer`
whose bootstrap succeeds is answered `ServerStarted` normally; and no
`serve` iteration ever terminates the responder process
(`std::process::exit` is never reached in the server role). -/
theorem C7_bootstrap_failure :
    (∀ (sid : ℕ) (b : Bool), start_mosh_server sid none b = .error .spawnFailed)
    ∧ (∀ (sid : ℕ) (L : List (List Byte)) (b : Bool),
        start_mosh_server sid (some (false, L)) b = .error .nonZeroExit)
    ∧ (∀ (sid : ℕ) (b : Bool),
        start_mosh_server sid (some (true, [moshConnectMarker])) b = .error .malformedLine)
    ∧ (∀ (st : ServerState) (env : SEnv) (a : Addr) (sid : ℕ) (e : BootErr),
        start_mosh_server sid env.moshSrvRes env.bindConnectOk = .error e →
        (∀ m, st.mosh = some m → m.sessid ≠ sid) →
        (handleMessage st env a (.StartServer sid)).1.mosh = none
        ∧ (handleMessage st env a (.StartServer sid)).2.1 = some (.Failed (bootErrMsg e))
        ∧ ∀ (env2 : SEnv) (a2 : Addr) (sid2 : ℕ) (m2 : MoshState),
            start_mosh_server sid2 env2.moshSrvRes env2.bindConnectOk = .ok m2 →
            (handleMessage (handleMessage st env a (.StartServer sid)).1 env2 a2
              (.StartServer sid2)).2.1 = some (.ServerStarted m2.key)
            ∧ (handleMessage (handleMessage st env a (.StartServer sid)).1 env2 a2
                (.StartServer sid2)).1.mosh = some m2)
    ∧ (∀ (st : ServerState) (env : SEnv) (ev : SEvent) (c : ℕ),
        (serverStep st env ev).2.2 ≠ .exitProcess c) := by
  refine ⟨fun _ _ => rfl, fun _ _ _ => rfl, fun _ _ => rfl, ?_, ?_⟩
  · intro st env a sid e hb hno
    have hreply : (match ({ st with recent_client_addr := some a } : ServerState).mosh with
        | some mosh => if mosh.sessid = sid then some (Message.ServerStarted mosh.key) else none
        | none => none) = (none : Option Message) := by
      rcases hmosh : st.mosh with _ | m
      · simp [hmosh]
      · simp [hmosh, hno m hmosh]
    have h1 : handleMessage st env a (.StartServer sid)
        = ({ st with recent_client_addr := some a, mosh := none },
            some (.Failed (bootErrMsg e)), [.spawnMoshServer sid]) := by
      simp only [handleMessage, hreply, Option.isNone_none, if_true, hb]
    refine ⟨by rw [h1], by rw [h1], ?_⟩
    intro env2 a2 sid2 m2 hb2
    have h2 : handleMessage { st with recent_client_addr := some a, mosh := none } env2 a2
        (.StartServer sid2)
        = ({ st with recent_client_addr := some a2, mosh := some m2 },
            some (.ServerStarted m2.key), [.spawnMoshServer sid2]) := by
      simp only [handleMessage, Option.isNone_none, if_true, hb2]
    rw [h1]
    exact ⟨by rw [h2], by rw [h2]⟩
  · intro st env ev c
    cases ev with
    | pollErr => simp [serverStep]
    | publicRecvErr => simp [serverStep]
    | moshRecvErr => rcases hm : st.mosh with _ | m <;> simp [serverStep, hm]
    | moshRecv pkt =>
      rcases hm : st.mosh with _ | m
      · simp [serverStep, hm]
      · rcases hca : st.recent_client_addr with _ | ca <;> simp [serverStep, hm, hca]
    | publicRecv pkt ca =>
      rcases hd : decrypt pkt st.crypto st.past_nonces with ⟨c2, res⟩
      cases res with
      | error e =>
        rcases hm : st.mosh with _ | m
        · simp [serverStep, hd, hm]
        · cases hms : env.moshSendOk <;> simp [serverStep, hd, hm, hms]
      | ok msg =>
        rcases hr : (handleMessage { st with
            past_nonces := if 1000000 < c2.card then (∅ : Finset Nonce) else c2 }
            env ca msg).2.1 with _ | reply
        · simp [serverStep, hd, hr]
        · cases henc : env.encOk <;> simp [serverStep, hd, hr, henc]

/-- A concrete server environment whose subsystem spawn fails. -/
def envBootFail : SEnv :=
  { moshSendOk := true, moshSrvRes := none, bindConnectOk := true, encOk := true,
    encNonce := nonceW }

theorem C7_bootstrap_failure_witness :
    start_mosh_server 7 envBootFail.moshSrvRes envBootFail.bindConnectOk
        = .error .spawnFailed
    ∧ (handleMessage (serverInit keyW) envBootFail 3 (.StartServer 7)).1.mosh = none
    ∧ (handleMessage (serverInit keyW) envBootFail 3 (.StartServer 7)).2.1
        = some (.Failed (bootErrMsg .spawnFailed)) := by
  refine ⟨by decide, ?_, ?_⟩
  · exact (C7_bootstrap_failure.2.2.2.1 (serverInit keyW) envBootFail 3 7 .spawnFailed
      (by decide) (by intro m hm; simp [serverInit] at hm)).1
  · exact (C7_bootstrap_failure.2.2.2.1 (serverInit keyW) envBootFail 3 7 .spawnFailed
      (by decide) (by intro m hm; simp [serverInit] at hm)).2.1

/-- The server invariant behind C10: whenever a subsystem is active, a
most-recent client address is recorded. -/
def serverInv (st : ServerState) : Prop :=
  st.mosh.isSome = true → st.recent_client_addr.isSome = true

theorem serverRun_cons (st : ServerState) (env : SEnv) (ev : SEvent)
    (rest : List (SEnv × SEvent)) :
    serverRun st ((env, ev) :: rest)
      = match (serverStep st env ev).2.2 with
        | .cont =>
          ((serverRun (serverStep st env ev).1 rest).1,
            (serverStep st env ev).2.1 ++ (serverRun (serverStep st env ev).1 rest).2.1,
            (serverRun (serverStep st env ev).1 rest).2.2)
        | oc => ((serverStep st env ev).1, (serverStep st env ev).2.1, oc) := rfl

/-- One `serve` iteration preserves the invariant: the subsystem is only
created inside the `StartServer` handler, which records the sender address
first, and `recent_client_addr` is never cleared. -/
theorem serverStep_inv (st : ServerState) (env : SEnv) (ev : SEvent)
    (h : serverInv st) : serverInv (serverStep st env ev).1 := by
  cases ev with
  | pollErr => exact h
  | publicRecvErr => exact h
  | moshRecvErr =>
    rcases hm : st.mosh with _ | m
    · simpa [serverStep, hm] using h
    · intro hx
      simp [serverStep, hm] at hx
  | moshRecv pkt =>
    rcases hm : st.mosh with _ | m
    · simpa [serverStep, hm] using h
    · rcases hca : st.recent_client_addr with _ | ca <;>
        simpa [serverStep, hm, hca] using h
  | publicRecv pkt ca =>
    rcases hd : decrypt pkt st.crypto st.past_nonces with ⟨c2, res⟩
    cases res with
    | error e =>
      rcases hm : st.mosh with _ | m
      · intro hx
        simp [serverStep, hd, hm] at hx
      · cases hms : env.moshSendOk
        · intro hx
          simp [serverStep, hd, hm, hms] at hx
        · simpa [serverStep, hd, hm, hms, serverInv] using h
    | ok msg =>
      cases henc : env.encOk with
      | false =>
        cases msg with
        | Ping => simpa [serverStep, hd, handleMessage, serverInv, henc] using h
        | Pong => simpa [serverStep, hd, handleMessage, serverInv, henc] using h
        | ServerStarted key => simpa [serverStep, hd, handleMessage, serverInv, henc] using h
        | Failed msg => simpa [serverStep, hd, handleMessage, serverInv, henc] using h
        | StartServer sid =>
          rcases hm : st.mosh with _ | m
          · rcases hboot : start_mosh_server sid env.moshSrvRes env.bindConnectOk with e | m2 <;>
              · intro hx
                simp [serverStep, hd, handleMessage, hm, hboot, henc] at hx ⊢
          · by_cases hsid : m.sessid = sid
            · intro hx
              simp [serverStep, hd, handleMessage, hm, hsid, henc] at hx ⊢
            · rcases hboot : start_mosh_server sid env.moshSrvRes env.bindConnectOk with e | m2 <;>
                · intro hx
                  simp [serverStep, hd, handleMessage, hm, hsid, hboot, henc] at hx ⊢
      | true =>
        cases msg with
        | Ping => simpa [serverStep, hd, handleMessage, serverInv, henc] using h
        | Pong => simpa [serverStep, hd, handleMessage, serverInv, henc] using h
        | ServerStarted key => simpa [serverStep, hd, handleMessage, serverInv, henc] using h
        | Failed msg => simpa [serverStep, hd, handleMessage, serverInv, henc] using h
        | StartServer sid =>
          rcases hm : st.mosh with _ | m
          · rcases hboot : start_mosh_server sid env.moshSrvRes env.bindConnectOk with e | m2 <;>
              · intro hx
                simp [serverStep, hd, handleMessage, hm, hboot, henc] at hx ⊢
          · by_cases hsid : m.sessid = sid
            · intro hx
              simp [serverStep, hd, handleMessage, hm, hsid, henc] at hx ⊢
            · rcases hboot : start_mosh_server sid env.moshSrvRes env.bindConnectOk with e | m2 <;>
                · intro hx
                  simp [serverStep, hd, handleMessage, hm, hsid, hboot, henc] at hx ⊢

/-- The invariant holds in every state the `serve` loop can reach from
`Server::new`. -/
theorem serverRun_inv : ∀ (evs : List (SEnv × SEvent)) (st : ServerState),
    serverInv st → serverInv (serverRun st evs).1 := by
  intro evs
  induction evs with
  | nil => intro st h; simpa [serverRun] using h
  | cons e rest ih =>
    intro st h
    obtain ⟨env, ev⟩ := e
    rw [serverRun_cons]
    rcases hoc : (serverStep st env ev).2.2 with _ | _ | c
    · simp only [hoc]
      exact ih (serverStep st env ev).1 (serverStep_inv st env ev h)
    · simp only [hoc]
      exact serverStep_inv st env ev h
    · simp only [hoc]
      exact serverStep_inv st env ev h

/-- C10: in every state the responder can reach from `Server::new`, an
active subsystem implies a recorded most-recent client address; hence
every payload received on the relay socket while a subsystem exists is
forwarded to that address, and the drop-because-no-client-known branch is
unreachable. -/
theorem C10_forward_target (key : Key) (evs : List (SEnv × SEvent)) (env : SEnv)
    (pkt : List Byte) :
    serverInv (serverRun (serverInit key) evs).1
    ∧ ∀ m, (serverRun (serverInit key) evs).1.mosh = some m →
        ∃ ca, (serverRun (serverInit key) evs).1.recent_client_addr = some ca
          ∧ serverStep (serverRun (serverInit key) evs).1 env (.moshRecv pkt)
              = ((serverRun (serverInit key) evs).1, [.sendPublic pkt ca], .cont) := by
  have hinv := serverRun_inv evs (serverInit key) (by intro hx; simp [serverInit] at hx)
  refine ⟨hinv, ?_⟩
  intro m hm
  have hrs := hinv (by simp [hm])
  rcases hca : (serverRun (serverInit key) evs).1.recent_client_addr with _ | ca
  · rw [hca] at hrs
    simp at hrs
  · exact ⟨ca, rfl, by simp [serverStep, hm, hca]⟩

theorem C10_forward_target_witness :
    ∃ ca, (serverRun (serverInit keyW)
          [(envB, .publicRecv (encrypt (.StartServer 42) keyW nonceW) 9)]).1.recent_client_addr
        = some ca
      ∧ serverStep (serverRun (serverInit keyW)
            [(envB, .publicRecv (encrypt (.StartServer 42) keyW nonceW) 9)]).1 envB
            (.moshRecv [1, 2, 3])
          = ((serverRun (serverInit keyW)
              [(envB, .publicRecv (encrypt (.StartServer 42) keyW nonceW) 9)]).1,
              [.sendPublic [1, 2, 3] ca], .cont) :=
  (C10_forward_target keyW [(envB, .publicRecv (encrypt (.StartServer 42) keyW nonceW) 9)]
    envB [1, 2, 3]).2 mWit (by decide)

/-! ## Claim C1: the replay-cache flush policy -/

/-- The cache a `decrypt` call leaves behind always contains the cache it
was given: `protocol.rs::decrypt` only ever inserts. -/
theorem decrypt_cache_mono (msgB : List Byte) (k : Key) (cache : Finset Nonce) :
    cache ⊆ (decrypt msgB k cache).1 := by
  rcases hd : deserDatagram msgB with _ | d
  · rw [decrypt_of_deser_none k cache hd]
  · rw [decrypt_of_deser_some k cache hd]
    by_cases hmg : d.magic ≠ MAGIC
    · rw [if_pos hmg]
    · rw [if_neg hmg]
      rcases ha : aeadDecrypt k d.nonce d.data with _ | buf <;> simp only [ha]
      · exact subset_rfl
      · by_cases hmem : d.nonce ∈ cache
        · rw [if_pos hmem]
        · rw [if_neg hmem]
          rcases deserMessage buf with _ | m2 <;> simp only <;>
            exact Finset.subset_insert _ _

/-- `handleMessage` never touches the replay cache. -/
theorem handleMessage_nonces (st : ServerState) (env : SEnv) (a : Addr) (msg : Message) :
    (handleMessage st env a msg).1.past_nonces = st.past_nonces := by
  cases msg with
  | Ping => rfl
  | Pong => rfl
  | ServerStarted k2 => rfl
  | Failed m2 => rfl
  | StartServer sid =>
    simp only [handleMessage]
    split
    · split <;> rfl
    · rfl

/-- The `connect` loop never removes anything from the client cache. -/
theorem clientStep_cache_mono (st : ClientState) (env : CEnv) (ev : CEvent) :
    st.past_nonces ⊆ (clientStep st env ev).1.past_nonces := by
  cases ev with
  | pollErr => exact fun _ hx => hx
  | publicRecvErr => exact fun _ hx => hx
  | timeout =>
    simp only [clientStep]
    split
    · exact fun _ hx => hx
    · split <;> exact fun _ hx => hx
  | moshRecvErr =>
    rcases hm : st.mosh with _ | m <;> simp only [clientStep, hm] <;> exact fun _ hx => hx
  | moshRecv pkt addr =>
    rcases hm : st.mosh with _ | mosh
    · simp only [clientStep, hm]
      exact fun _ hx => hx
    · simp only [clientStep, hm]
      split <;> split <;> exact fun _ hx => hx
  | publicRecv pkt fromaddr =>
    rcases hd : decrypt pkt st.crypto st.past_nonces with ⟨c2, res⟩
    have hmono := decrypt_cache_mono pkt st.crypto st.past_nonces
    rw [hd] at hmono
    simp only at hmono
    by_cases hfrom : fromaddr ≠ st.destination_address
    · simp only [clientStep, if_pos hfrom]
      exact fun _ hx => hx
    · cases res with
      | error e =>
        rcases hm : st.mosh with _ | mosh
        · simp only [clientStep, if_neg hfrom, hd, hm]
          exact hmono
        · rcases hra : mosh.reply_address with _ | ra
          · simp only [clientStep, if_neg hfrom, hd, hm, hra]
            exact hmono
          · simp only [clientStep, if_neg hfrom, hd, hm, hra]
            split <;> exact hmono
      | ok msg =>
        cases msg with
        | Ping =>
          simp only [clientStep, if_neg hfrom, hd]
          exact hmono
        | Pong =>
          cases hp : st.ping_mode <;>
            simp only [clientStep, if_neg hfrom, hd, hp, Bool.false_eq_true,
              if_true, if_false] <;>
            exact hmono
        | StartServer sid =>
          simp only [clientStep, if_neg hfrom, hd]
          exact hmono
        | Failed m2 =>
          simp only [clientStep, if_neg hfrom, hd]
          exact hmono
        | ServerStarted k2 =>
          cases hp : st.ping_mode <;> cases hs : env.startMoshOk <;>
            simp only [clientStep, if_neg hfrom, hd, hp, hs, Bool.false_eq_true,
              if_true, if_false] <;>
            exact hmono

/-- C1 (amended): only the server role bounds the replay cache.  After
each successfully decrypted datagram on the public socket the server
clears the cache wholesale when its size exceeds 1,000,000; the clear
happens after the nonce insertion (the whole cache, new nonce included,
is discarded) and only on the successful-decrypt path, so at most
1,000,000 entries remain after each successfully handled datagram.  The
client role never removes anything from its cache. -/
theorem C1_cache_policy :
    (∀ (st : ServerState) (env : SEnv) (pkt : List Byte) (a : Addr) (c : Finset Nonce)
        (m : Message), decrypt pkt st.crypto st.past_nonces = (c, .ok m) →
        (serverStep st env (.publicRecv pkt a)).1.past_nonces
            = (if 1000000 < c.card then ∅ else c)
        ∧ (serverStep st env (.publicRecv pkt a)).1.past_nonces.card ≤ 1000000)
    ∧ (∀ (st : ClientState) (env : CEnv) (ev : CEvent),
        st.past_nonces ⊆ (clientStep st env ev).1.past_nonces) := by
  refine ⟨?_, clientStep_cache_mono⟩
  intro st env pkt a c m hdec
  have hstep : (serverStep st env (.publicRecv pkt a)).1.past_nonces
      = (if 1000000 < c.card then ∅ else c) := by
    simp only [serverStep, hdec]
    rcases hr : (handleMessage { st with
        past_nonces := if 1000000 < c.card then (∅ : Finset Nonce) else c } env a m).2.1
      with _ | reply
    · simp only [hr]
      rw [handleMessage_nonces]
    · cases henc : env.encOk <;>
        simp only [hr, henc, Bool.false_eq_true, if_true, if_false] <;>
        rw [handleMessage_nonces]
  refine ⟨hstep, ?_⟩
  rw [hstep]
  split
  · simp
  · omega

theorem C1_cache_policy_witness :
    decrypt (encrypt .Ping keyW nonceW) (serverInit keyW).crypto (serverInit keyW).past_nonces
        = ({nonceW}, .ok .Ping)
    ∧ (serverStep (serverInit keyW) envB
        (.publicRecv (encrypt .Ping keyW nonceW) 9)).1.past_nonces.card ≤ 1000000 :=
  ⟨by decide,
    (C1_cache_policy.1 (serverInit keyW) envB (encrypt .Ping keyW nonceW) 9 {nonceW} .Ping
      (by decide)).2⟩

/-- The `i`-th member of a family of pairwise distinct 24-byte nonces. -/
def natNonce (i : ℕ) : Nonce := beBytes 24 i

/-- The set of the first `k` such nonces. -/
def nonceSet (k : ℕ) : Finset Nonce := (Finset.range k).image natNonce

theorem natNonce_inj {i j : ℕ} (hi : i < 256 ^ 24) (hj : j < 256 ^ 24)
    (h : natNonce i = natNonce j) : i = j := by
  have h2 := congrArg deBytes h
  rwa [natNonce, natNonce, deBytes_beBytes_of_lt hi, deBytes_beBytes_of_lt hj] at h2

theorem natNonce_not_mem {n : ℕ} (hn : n < 256 ^ 24) : natNonce n ∉ nonceSet n := by
  intro hmem
  rw [nonceSet, Finset.mem_image] at hmem
  obtain ⟨i, hi, heq⟩ := hmem
  rw [Finset.mem_range] at hi
  have := natNonce_inj (lt_trans hi hn) hn heq
  omega

theorem nonceSet_card {k : ℕ} (hk : k ≤ 256 ^ 24) : (nonceSet k).card = k := by
  rw [nonceSet, Finset.card_image_of_injOn, Finset.card_range]
  intro i hi j hj hij
  rw [Finset.coe_range, Set.mem_Iio] at hi hj
  exact natNonce_inj (lt_of_lt_of_le hi hk) (lt_of_lt_of_le hj hk) hij

theorem nonceSet_succ (n : ℕ) : nonceSet (n + 1) = insert (natNonce n) (nonceSet n) := by
  rw [nonceSet, nonceSet, Finset.range_succ, Finset.image_insert]

/-- The client state after `k` successfully decrypted datagrams. -/
def cexClient (k : ℕ) : ClientState :=
  { clientInit keyW 5 0 false with past_nonces := nonceSet k }

/-- The `i`-th event fed to the client: a fresh valid `Ping` envelope
arriving from the fixed destination address. -/
def pingEvent (i : ℕ) : CEnv × CEvent :=
  (envW, .publicRecv (encrypt .Ping keyW (natNonce i)) 5)

def pingEvents (n : ℕ) : List (CEnv × CEvent) := (List.range n).map pingEvent

/-- A successfully decrypted `Ping` on the public socket is logged as a
stray message: the cache advances and the loop continues. -/
theorem clientStep_ping (st : ClientState) (env : CEnv) (pkt : List Byte) (c2 : Finset Nonce)
    (hdec : decrypt pkt st.crypto st.past_nonces = (c2, .ok .Ping)) :
    clientStep st env (.publicRecv pkt st.destination_address)
      = ({ st with past_nonces := c2 }, [], .cont) := by
  simp only [clientStep]
  rw [if_neg (show ¬ (st.destination_address ≠ st.destination_address) from
    fun hne => hne rfl)]
  rw [hdec]

theorem cexStep {n : ℕ} (hn : n < 256 ^ 24) :
    clientStep (cexClient n) envW (.publicRecv (encrypt .Ping keyW (natNonce n)) 5)
      = (cexClient (n + 1), [], .cont) := by
  have hdec : decrypt (encrypt .Ping keyW (natNonce n)) (cexClient n).crypto
      (cexClient n).past_nonces = (insert (natNonce n) (nonceSet n), .ok .Ping) :=
    decrypt_encrypt .Ping keyW (natNonce n) (nonceSet n) trivial (beBytes_length 24 n)
      (natNonce_not_mem hn) (by norm_num [serMessage, beBytes_length])
  have h := clientStep_ping (cexClient n) envW (encrypt .Ping keyW (natNonce n))
    (insert (natNonce n) (nonceSet n)) hdec
  rw [← nonceSet_succ] at h
  exact h

theorem clientRun_append (l1 l2 : List (CEnv × CEvent)) :
    ∀ st : ClientState, (clientRun st l1).2.2 = .cont →
      clientRun st (l1 ++ l2)
        = ((clientRun (clientRun st l1).1 l2).1,
            (clientRun st l1).2.1 ++ (clientRun (clientRun st l1).1 l2).2.1,
            (clientRun (clientRun st l1).1 l2).2.2) := by
  induction l1 with
  | nil =>
    intro st _
    simp [clientRun]
  | cons e rest ih =>
    obtain ⟨env, ev⟩ := e
    intro st h
    rw [clientRun_cons] at h
    rcases hoc : (clientStep st env ev).2.2 with _ | _ | c
    · simp only [hoc] at h
      rw [List.cons_append, clientRun_cons, clientRun_cons]
      simp only [hoc]
      rw [ih (clientStep st env ev).1 h]
      simp [List.append_assoc]
    · simp only [hoc] at h
      cases h
    · simp only [hoc] at h
      cases h

theorem cexRun : ∀ n : ℕ, n ≤ 256 ^ 24 →
    clientRun (cexClient 0) (pingEvents n) = (cexClient n, [], .cont) := by
  intro n
  induction n with
  | zero =>
    intro _
    simp [pingEvents, clientRun]
  | succ k ih =>
    intro hk
    have hsplit : pingEvents (k + 1) = pingEvents k ++ [pingEvent k] := by
      simp [pingEvents, List.range_succ]
    have hone : clientRun (cexClient k) [pingEvent k] = (cexClient (k + 1), [], .cont) := by
      rw [show pingEvent k = (envW, CEvent.publicRecv (encrypt .Ping keyW (natNonce k)) 5)
        from rfl]
      rw [clientRun_cons, cexStep (by omega)]
      simp [clientRun]
    rw [hsplit, clientRun_append (pingEvents k) [pingEvent k] (cexClient 0)
      (by rw [ih (by omega)]), ih (by omega)]
    simp only
    rw [hone]
    rfl

set_option maxRecDepth 8192 in
/-- C1 (as stated, refuted): in the client role the replay cache is never
cleared.  Starting from `Client::new` and feeding the `connect` loop
1,000,001 valid envelopes with pairwise distinct nonces (all from the
fixed destination), every decrypt succeeds and after the last operation
the cache holds 1,000,001 entries — more than the claimed 1,000,000
bound, and no clearing ever happened. -/
theorem C1_counterexample :
    1000000 < (clientRun (clientInit keyW 5 0 false) (pingEvents 1000001)).1.past_nonces.card := by
  have h0 : cexClient 0 = clientInit keyW 5 0 false := rfl
  rw [← h0, cexRun 1000001 (by norm_num)]
  show 1000000 < (cexClient 1000001).past_nonces.card
  rw [show (cexClient 1000001).past_nonces = nonceSet 1000001 from rfl,
    nonceSet_card (by norm_num)]
  norm_num
